import Mathlib

/-!
Verification of the data pipeline of the Indonesian film monitoring dashboard
(src/app.py) against its natural-language specification.

The pipeline is embedded shallowly:
  - a CSV row becomes a `RawRow` of optional strings (a pandas NaN cell is
    `none`, which is what `pd.read_csv` produces for an empty field);
  - `cleanRow` mirrors the body of `load_and_clean_data` (lines 34-45);
  - the year-range filter mirrors `df_filtered` (lines 65-68);
  - each aggregation of the dashboard body is a pure function on
    `List Record`, with pandas conventions made explicit: `groupby` sorts
    its keys ascending and drops absent keys, `idxmax` returns the first
    index attaining the maximum and raises on an empty series (modelled by
    `Option`), `sort_values` is modelled as a stable sort.
All definitions are structurally recursive so that concrete witnesses
evaluate inside the kernel.
-/

namespace FilmDash

/-- Raw CSV row as produced by pandas read_csv after the header-lowercasing
step of line 36: each of the five relevant columns is either a string cell
or absent (pandas NaN for an empty field). -/
structure RawRow where
  title : Option String
  year : Option String
  runtime : Option String
  genre : Option String
  rating : Option String

deriving instance DecidableEq for RawRow

/-- Cleaned film record, the row type after lines 38-43 of app.py. -/
structure Record where
  title : Option String
  year : Option Int
  runtime_min : Option Nat
  decade : Option Int
  genre_list : List String
  rating_clean : String

deriving instance DecidableEq for Record

/-- Numeric value of a list of decimal digit characters. -/
def digitsVal (ds : List Char) : Nat :=
  ds.foldl (fun n c => 10 * n + (c.toNat - 48)) 0

/-- Keep the leading run of digit characters. -/
def takeDigits : List Char → List Char
  | [] => []
  | c :: cs => if c.isDigit then c :: takeDigits cs else []

/-- First maximal run of digit characters anywhere in the text, as matched by
the regex (\d+) used on line 39 of app.py; `none` when the text has no digit. -/
def firstDigitRun : List Char → Option (List Char)
  | [] => none
  | c :: cs => if c.isDigit then some (c :: takeDigits cs) else firstDigitRun cs

/-- All characters are decimal digits. -/
def allDigits (l : List Char) : Bool := l.all (fun c => c.isDigit)

/-- Model of pd.to_numeric(-, errors = coerce) restricted to the integer
strings that occur in the year column: an optional sign followed by a
non-empty digit run parses, anything else coerces to `none`. -/
def parseIntStr (s : String) : Option Int :=
  match s.data with
  | [] => none
  | c :: cs =>
    if c = '-' then
      if cs ≠ [] && allDigits cs then some (-(digitsVal cs : Int)) else none
    else if allDigits (c :: cs) then some ((digitsVal (c :: cs) : Int)) else none

/-- Year coercion of line 38: absent cells stay absent, unparseable text
coerces to absent. -/
def toNumericYear (o : Option String) : Option Int := o.bind parseIntStr

/-- Split a character list on the two-character separator of a comma followed
by a space, exactly as the Python call str.split on that separator does on
line 42: non-overlapping, left to right, and the result is never empty. -/
def splitCS : List Char → List Char → List (List Char)
  | [], acc => [acc.reverse]
  | [c], acc => [(c :: acc).reverse]
  | c :: c2 :: cs2, acc =>
    if c = ',' && c2 = ' ' then acc.reverse :: splitCS cs2 []
    else splitCS (c2 :: cs2) (c :: acc)

/-- Cleaning of one row, the body of load_and_clean_data (lines 38-43).
Line 39 stringifies the runtime cell before the digit extraction; a NaN cell
stringifies to the digit-free text nan, so an absent runtime yields an absent
runtime_min. The decade of line 41 uses floor division as Python does. -/
def cleanRow (raw : RawRow) : Record :=
  let y := toNumericYear raw.year
  { title := raw.title
    year := y
    runtime_min := raw.runtime.bind (fun s => (firstDigitRun s.data).map digitsVal)
    decade := y.map (fun v => Int.fdiv v 10 * 10)
    genre_list := (splitCS (raw.genre.getD "Unknown").data []).map (fun cs => String.mk cs)
    rating_clean := raw.rating.getD "Unclassified" }

/-- Record set produced by load_and_clean_data: one cleaned record per CSV
row, in file order. -/
def loadClean (raws : List RawRow) : List Record := raws.map cleanRow

/-- Year-range filter of lines 65-68: a row passes iff its year is present
and lies within both inclusive bounds; a NaN year compares false in pandas
and is excluded. -/
def filterByYearRange (recs : List Record) (lo hi : Int) : List Record :=
  recs.filter (fun r =>
    match r.year with
    | some y => decide (lo ≤ y) && decide (y ≤ hi)
    | none => false)

/-- Strict comparison of characters by code point, the order Python uses. -/
def charLt (a b : Char) : Bool := decide (a.toNat < b.toNat)

/-- Lexicographic strict order on character lists by code point; this is the
order in which Python, numpy and pandas compare strings. -/
def lexLt : List Char → List Char → Bool
  | [], [] => false
  | [], _ :: _ => true
  | _ :: _, [] => false
  | a :: s, b :: t => if a = b then lexLt s t else charLt a b

/-- Lexicographic strict order on strings by code point. -/
def strLt (a b : String) : Bool := lexLt a.data b.data

/-- Insert a key into a strictly ascending list of keys, skipping it when it
is already present. `ltB` is the strict order on keys. -/
def insKeyBy {α : Type} [DecidableEq α] (ltB : α → α → Bool) (x : α) :
    List α → List α
  | [] => [x]
  | y :: ys =>
    if ltB x y then x :: y :: ys
    else if x = y then y :: ys
    else y :: insKeyBy ltB x ys

/-- Distinct keys of a list in strictly ascending `ltB` order: the group keys
a pandas groupby produces (its default sorts keys ascending). -/
def sortedKeysBy {α : Type} [DecidableEq α] (ltB : α → α → Bool) :
    List α → List α
  | [] => []
  | x :: xs => insKeyBy ltB x (sortedKeysBy ltB xs)

/-- Number of occurrences of a key in a list. -/
def countKey {α : Type} [DecidableEq α] (a : α) (l : List α) : Nat :=
  (l.filter (fun x => decide (x = a))).length

/-- Model of groupby(-).size().reset_index(): one (key, count) row per
distinct key, rows in ascending key order, as pandas produces with its
default key sorting (absent keys are dropped by the caller beforehand). -/
def groupCountsBy {α : Type} [DecidableEq α] (ltB : α → α → Bool)
    (l : List α) : List (α × Nat) :=
  (sortedKeysBy ltB l).map (fun k => (k, countKey k l))

/-- Insert a keyed count into a list sorted descending by count, before the
first entry whose count it reaches: a stable descending insertion. -/
def insDesc {α : Type} (x : α × Nat) : List (α × Nat) → List (α × Nat)
  | [] => [x]
  | y :: ys => if y.2 ≤ x.2 then x :: y :: ys else y :: insDesc x ys

/-- Model of sort_values(film_count, ascending = False), realized as a
descending insertion sort. The pandas default kind is quicksort, which is
not stable, so the relative order of rows with equal counts is not a
guaranteed property of the code; this model fixes one concrete order (it
keeps the ascending key order of the groupby on ties), which agrees with
the real code on tables below the numpy introsort cutoff, where insertion
sort is used — in particular on the two-row table of the claim C6
counterexample. No theorem below asserts a tie order: the proved
properties of genreCounts (row counts, descending count order, truncation,
completeness) hold for every sort of the group table. -/
def sortDesc {α : Type} : List (α × Nat) → List (α × Nat)
  | [] => []
  | x :: xs => insDesc x (sortDesc xs)

/-- First element of a (key, count) list attaining the maximal count, or
`none` on an empty list. This is pandas idxmax followed by loc: idxmax
returns the first index holding the maximum and raises ValueError on an
empty series, so `none` models that exception (line 131 of app.py). -/
def firstMax {α : Type} : List (α × Nat) → Option (α × Nat)
  | [] => none
  | p :: ps =>
    match firstMax ps with
    | none => some p
    | some m => some (if p.2 < m.2 then m else p)

/-- Strict order on Int as a Bool, the key order of numeric groupbys. -/
def intLt (a b : Int) : Bool := decide (a < b)

/-- Present years of a record set, in record order: the year column with
absent entries dropped, as a pandas groupby on year does. -/
def yearsOf (recs : List Record) : List Int := recs.filterMap (fun r => r.year)

/-- yearly_counts of lines 123-129: group the filtered records by year,
count each group, sort ascending by year. -/
def yearlyCounts (recs : List Record) : List (Int × Nat) :=
  groupCountsBy intLt (yearsOf recs)

/-- peak_year of line 131: the row of yearly_counts at idxmax of the count
column; `none` models the ValueError idxmax raises on an empty series. -/
def peakYear (recs : List Record) : Option (Int × Nat) :=
  firstMax (yearlyCounts recs)

/-- Exploded genre column: explode(genre_list) emits one row per list
element, in record order. -/
def explodedGenres (recs : List Record) : List String :=
  (recs.map (fun r => r.genre_list)).flatten

/-- genre_counts of lines 215-223: explode the genre lists, group and count
by genre, sort descending by count, keep the top n rows. -/
def genreCounts (recs : List Record) (n : Nat) : List (String × Nat) :=
  (sortDesc (groupCountsBy strLt (explodedGenres recs))).take n

/-- rating_dist of lines 245-251: group and count by rating_clean; pandas
leaves the rows in its default ascending key order. -/
def ratingDistribution (recs : List Record) : List (String × Nat) :=
  groupCountsBy strLt (recs.map (fun r => r.rating_clean))

/-- total_films of line 80. -/
def totalFilms (recs : List Record) : Nat := recs.length

/-- unclassified of line 81: rows whose rating_clean equals Unclassified. -/
def unclassifiedCount (recs : List Record) : Nat :=
  countKey "Unclassified" (recs.map (fun r => r.rating_clean))

/-- missing_runtime of line 82: rows with an absent runtime_min. -/
def missingRuntimeCount (recs : List Record) : Nat :=
  (recs.filter (fun r => r.runtime_min.isNone)).length

/-- avg_runtime of line 83: the mean of the present runtime_min values;
pandas mean of an all-NaN column is NaN, displayed as N/A on line 98, so an
empty value list yields `none`. -/
def averageRuntime (recs : List Record) : Option Rat :=
  let rs := recs.filterMap (fun r => r.runtime_min)
  if rs = [] then none
  else some ((rs.map (fun v => (v : Rat))).sum / (rs.length : Rat))

/-- Unclassified share in percent, with the explicit zero-total guards of
lines 89 and 143: when the filtered set is empty the rate is 0. -/
def unclassifiedRatePct (recs : List Record) : Rat :=
  if totalFilms recs = 0 then 0
  else (unclassifiedCount recs : Rat) / (totalFilms recs : Rat) * 100

/-- Missing-runtime share in percent with the zero-total guard of line 94. -/
def missingRuntimeRatePct (recs : List Record) : Rat :=
  if totalFilms recs = 0 then 0
  else (missingRuntimeCount recs : Rat) / (totalFilms recs : Rat) * 100

/-- Slider bounds of lines 55-56: int() of the min and max of the year
column. Pandas min and max skip NaN, and when every year is NaN they return
NaN, on which int() raises ValueError; `none` models that exception. -/
def yearBounds (recs : List Record) : Option (Int × Int) :=
  match yearsOf recs with
  | [] => none
  | y :: ys => some (ys.foldl min y, ys.foldl max y)

/-- Token of the fragment of Python regular expressions that the search box
query can exercise in this model: a literal character or the any-character
dot. The model of str.contains below is faithful for queries whose only
regex metacharacter is the dot; the theorems about it stay inside that
fragment. -/
inductive RTok where
  | lit : Char → RTok
  | dot : RTok

deriving instance DecidableEq for RTok

/-- One regex token against one character: a literal matches itself and the
dot matches every character except the newline (re.DOTALL is off). -/
def tokMatches : RTok → Char → Bool
  | RTok.lit a, c => decide (a = c)
  | RTok.dot, c => decide (c.val ≠ 10)

/-- Match the whole token list against a prefix of the text. -/
def reMatchHere : List RTok → List Char → Bool
  | [], _ => true
  | _ :: _, [] => false
  | t :: ps, c :: cs => tokMatches t c && reMatchHere ps cs

/-- Python re.search: the pattern matches starting at some position of the
text. -/
def reSearch (p : List RTok) : List Char → Bool
  | [] => reMatchHere p []
  | c :: cs => reMatchHere p (c :: cs) || reSearch p cs

/-- Compile a query string to regex tokens: the dot becomes the wildcard,
every other character a literal. Faithful to Python for queries whose only
metacharacter is the dot. -/
def toPattern (s : List Char) : List RTok :=
  s.map (fun c => if c = '.' then RTok.dot else RTok.lit c)

/-- ASCII lowercasing of a string, the model of the case = False flag of
str.contains (re.IGNORECASE) applied by folding both sides. -/
def lowerChars (s : String) : List Char := s.data.map Char.toLower

/-- Title predicate of line 310: str.contains(search, case = False,
na = False) runs a case-insensitive regex search over the title and maps an
absent title to False. -/
def titleMatches (q : String) (r : Record) : Bool :=
  match r.title with
  | none => false
  | some t => reSearch (toPattern (lowerChars q)) (lowerChars t)

/-- Film Registry Explorer of lines 306-313: a non-empty query filters the
filtered records by the title predicate; an empty query shows head(20). -/
def searchExplorer (recs : List Record) (q : String) : List Record :=
  if q = "" then recs.take 20 else recs.filter (titleMatches q)

/-- Character of the query that Python regex treats specially. -/
def isRegexMeta (c : Char) : Bool :=
  c ∈ ".^$*+?[]\\|()".data || decide (c.val = 123) || decide (c.val = 125)

/-- The first list is a contiguous leading piece of the second. -/
def isPrefixB : List Char → List Char → Bool
  | [], _ => true
  | _ :: _, [] => false
  | a :: ps, b :: bs => decide (a = b) && isPrefixB ps bs

/-- The first list occurs contiguously somewhere in the second. -/
def containsSub (p : List Char) : List Char → Bool
  | [] => isPrefixB p []
  | c :: cs => isPrefixB p (c :: cs) || containsSub p cs

/-- Written from the words of the spec and of claim C9: the search interface
as a case-insensitive substring match over the title, absent titles never
matching, with head(20) for the empty query. Compared against
`searchExplorer`, which embeds the actual code. -/
def searchSpecSubstr (recs : List Record) (q : String) : List Record :=
  if q = "" then recs.take 20
  else recs.filter (fun r =>
    match r.title with
    | none => false
    | some t => containsSub (lowerChars q) (lowerChars t))

/-- First occurrences of the distinct elements of a list, in encounter
order. Used only to phrase the orderings that claims C6 and C7 assert. -/
def dedupFirst {α : Type} [DecidableEq α] : List α → List α
  | [] => []
  | x :: xs => x :: (dedupFirst xs).filter (fun y => decide (y ≠ x))

/-- Written from the words of claim C6: genre counts grouped in first
encounter order and stably sorted descending by count, so that equal counts
keep the earlier-encountered genre first. Compared against `genreCounts`,
which embeds the actual code. -/
def genreCountsClaimOrder (recs : List Record) (n : Nat) : List (String × Nat) :=
  (sortDesc ((dedupFirst (explodedGenres recs)).map
    (fun g => (g, countKey g (explodedGenres recs))))).take n

/-- Written from the words of claim C7: the rating distribution with one row
per distinct rating in first encounter order. Compared against
`ratingDistribution`, which embeds the actual code. -/
def ratingDistributionClaimOrder (recs : List Record) : List (String × Nat) :=
  (dedupFirst (recs.map (fun r => r.rating_clean))).map
    (fun g => (g, countKey g (recs.map (fun r => r.rating_clean))))

/-! Counting lemmas: a list of pairwise-distinct keys covering a list splits
its length into the per-key occurrence counts. -/

theorem length_filterMap_of_isSome {α β : Type} {l : List α} {g : α → Option β}
    (h : ∀ a ∈ l, (g a).isSome) : (l.filterMap g).length = l.length := by
  induction l with
  | nil => rfl
  | cons x xs ih =>
    have hx := h x (List.mem_cons_self x xs)
    rcases Option.isSome_iff_exists.mp hx with ⟨b, hb⟩
    rw [List.filterMap_cons, hb, List.length_cons,
      ih (fun a ha => h a (List.mem_cons_of_mem x ha)), List.length_cons]

theorem countKey_add_rest {α : Type} [DecidableEq α] (k : α) (l : List α) :
    countKey k l + (l.filter (fun x => !decide (x = k))).length = l.length := by
  induction l with
  | nil => rfl
  | cons x xs ih =>
    unfold countKey at ih ⊢
    by_cases hx : x = k <;>
      simp [List.filter_cons, hx, -List.filter_filter] <;> omega

theorem countKey_rest_ne {α : Type} [DecidableEq α] {k k' : α} (h : k' ≠ k)
    (l : List α) :
    countKey k' (l.filter (fun x => !decide (x = k))) = countKey k' l := by
  induction l with
  | nil => rfl
  | cons x xs ih =>
    unfold countKey at ih ⊢
    by_cases hx : x = k
    · have hxk : ¬ x = k' := fun he => h (he.symm.trans hx)
      simp [List.filter_cons, hx, hxk, ih, Ne.symm h, -List.filter_filter]
    · by_cases hx' : x = k' <;>
        simp [List.filter_cons, hx, hx', ih, h, -List.filter_filter]

theorem sum_countKey {α : Type} [DecidableEq α] :
    ∀ (keys l : List α), keys.Nodup → (∀ a ∈ l, a ∈ keys) →
      (keys.map (fun k => countKey k l)).sum = l.length := by
  intro keys
  induction keys with
  | nil =>
    intro l _ h
    have hl : l = [] := List.eq_nil_iff_forall_not_mem.mpr
      (fun a ha => by simpa using h a ha)
    subst hl; rfl
  | cons k ks ih =>
    intro l hnd hcov
    have hk : k ∉ ks := (List.nodup_cons.mp hnd).1
    have hks : ks.Nodup := (List.nodup_cons.mp hnd).2
    have hmapeq : ks.map (fun k' => countKey k' l)
        = ks.map (fun k' => countKey k' (l.filter (fun x => !decide (x = k)))) := by
      apply List.map_congr_left
      intro k' hk'
      have hne : k' ≠ k := fun he => hk (he ▸ hk')
      rw [countKey_rest_ne hne]
    have hcov' : ∀ a ∈ l.filter (fun x => !decide (x = k)), a ∈ ks := by
      intro a ha
      have hal : a ∈ l := (List.mem_filter.mp ha).1
      have hne : a ≠ k := by simpa using (List.mem_filter.mp ha).2
      rcases List.mem_cons.mp (hcov a hal) with h | h
      · exact absurd h hne
      · exact h
    rw [List.map_cons, List.sum_cons, hmapeq, ih _ hks hcov']
    exact countKey_add_rest k l

/-! Lemmas about the sorted-distinct-keys construction behind the pandas
groupby model. The strict key order `ltB` is assumed transitive, connected
and irreflexive; the instantiations prove these for Int and for the
lexicographic string order. -/

theorem mem_insKeyBy {α : Type} [DecidableEq α] (ltB : α → α → Bool) (x a : α) :
    ∀ l : List α, (a ∈ insKeyBy ltB x l ↔ a = x ∨ a ∈ l) := by
  intro l
  induction l with
  | nil => simp [insKeyBy]
  | cons y ys ih =>
    by_cases h1 : ltB x y
    · simp [insKeyBy, h1]
    · by_cases h2 : x = y
      · subst h2
        simp only [insKeyBy, h1, Bool.false_eq_true, if_false, if_pos rfl]
        constructor
        · exact fun h => Or.inr h
        · rintro (h | h)
          · exact h ▸ List.mem_cons_self x ys
          · exact h
      · simp only [insKeyBy, h1, Bool.false_eq_true, if_false, if_neg h2,
          List.mem_cons, ih]
        tauto

theorem pairwise_insKeyBy {α : Type} [DecidableEq α] {ltB : α → α → Bool}
    (htrans : ∀ a b c, ltB a b = true → ltB b c = true → ltB a c = true)
    (hconn : ∀ a b, a ≠ b → ltB a b = true ∨ ltB b a = true) (x : α) :
    ∀ l : List α, l.Pairwise (fun a b => ltB a b = true) →
      (insKeyBy ltB x l).Pairwise (fun a b => ltB a b = true) := by
  intro l
  induction l with
  | nil => simp [insKeyBy]
  | cons y ys ih =>
    intro hp
    rcases List.pairwise_cons.mp hp with ⟨hy, hys⟩
    by_cases h1 : ltB x y = true
    · unfold insKeyBy
      rw [if_pos h1]
      refine List.pairwise_cons.mpr ⟨?_, hp⟩
      intro z hz
      rcases List.mem_cons.mp hz with h | h
      · exact h ▸ h1
      · exact htrans x y z h1 (hy z h)
    · by_cases h2 : x = y
      · subst h2
        unfold insKeyBy
        rw [if_neg h1, if_pos rfl]
        exact hp
      · unfold insKeyBy
        rw [if_neg h1, if_neg h2]
        refine List.pairwise_cons.mpr ⟨?_, ih hys⟩
        intro z hz
        rcases (mem_insKeyBy ltB x z ys).mp hz with h | h
        · rw [h]
          rcases hconn x y h2 with h | h
          · exact absurd h h1
          · exact h
        · exact hy z h

theorem mem_sortedKeysBy {α : Type} [DecidableEq α] (ltB : α → α → Bool) (a : α) :
    ∀ l : List α, (a ∈ sortedKeysBy ltB l ↔ a ∈ l) := by
  intro l
  induction l with
  | nil => simp [sortedKeysBy]
  | cons x xs ih =>
    simp [sortedKeysBy, mem_insKeyBy, ih]

theorem pairwise_sortedKeysBy {α : Type} [DecidableEq α] {ltB : α → α → Bool}
    (htrans : ∀ a b c, ltB a b = true → ltB b c = true → ltB a c = true)
    (hconn : ∀ a b, a ≠ b → ltB a b = true ∨ ltB b a = true) :
    ∀ l : List α, (sortedKeysBy ltB l).Pairwise (fun a b => ltB a b = true) := by
  intro l
  induction l with
  | nil => simp [sortedKeysBy]
  | cons x xs ih => exact pairwise_insKeyBy htrans hconn x _ ih

theorem nodup_of_pairwise_ltB {α : Type} {ltB : α → α → Bool}
    (hirr : ∀ a, ltB a a = false) {l : List α}
    (h : l.Pairwise (fun a b => ltB a b = true)) : l.Nodup := by
  refine h.imp ?_
  intro a b hab he
  subst he
  rw [hirr a] at hab
  exact Bool.false_ne_true hab

/-! Order properties of the two key orders: `intLt` on years and the
lexicographic `strLt` on genre and rating labels. -/

theorem intLt_trans (a b c : Int) (h1 : intLt a b = true) (h2 : intLt b c = true) :
    intLt a c = true := by
  simp only [intLt, decide_eq_true_eq] at h1 h2 ⊢
  omega

theorem intLt_conn (a b : Int) (h : a ≠ b) : intLt a b = true ∨ intLt b a = true := by
  simp only [intLt, decide_eq_true_eq]
  omega

theorem intLt_irrefl (a : Int) : intLt a a = false := by
  simp [intLt]

theorem charLt_trans {a b c : Char} (h1 : charLt a b = true) (h2 : charLt b c = true) :
    charLt a c = true := by
  simp only [charLt, decide_eq_true_eq] at h1 h2 ⊢
  exact lt_trans h1 h2

theorem charLt_irrefl (a : Char) : charLt a a = false := by
  simp [charLt]

theorem charLt_conn {a b : Char} (h : a ≠ b) : charLt a b = true ∨ charLt b a = true := by
  simp only [charLt, decide_eq_true_eq]
  rcases Nat.lt_trichotomy a.toNat b.toNat with hlt | heq | hgt
  · exact Or.inl hlt
  · exact absurd (Char.ext (UInt32.ext heq)) h
  · exact Or.inr hgt

theorem lexLt_trans : ∀ a b c : List Char,
    lexLt a b = true → lexLt b c = true → lexLt a c = true := by
  intro a
  induction a with
  | nil =>
    intro b c h1 h2
    cases b with
    | nil => simp [lexLt] at h1
    | cons y ys =>
      cases c with
      | nil => simp [lexLt] at h2
      | cons z zs => simp [lexLt]
  | cons x xs ih =>
    intro b c h1 h2
    cases b with
    | nil => simp [lexLt] at h1
    | cons y ys =>
      cases c with
      | nil => simp [lexLt] at h2
      | cons z zs =>
        unfold lexLt at h1 h2 ⊢
        by_cases hxy : x = y
        · subst hxy
          rw [if_pos rfl] at h1
          by_cases hyz : x = z
          · subst hyz
            rw [if_pos rfl] at h2
            rw [if_pos rfl]
            exact ih ys zs h1 h2
          · rw [if_neg hyz] at h2
            rw [if_neg hyz]
            exact h2
        · rw [if_neg hxy] at h1
          by_cases hyz : y = z
          · subst hyz
            rw [if_neg hxy]
            exact h1
          · rw [if_neg hyz] at h2
            have hxz : charLt x z = true := charLt_trans h1 h2
            by_cases he : x = z
            · subst he
              rw [charLt_irrefl] at hxz
              exact absurd hxz (by simp)
            · rw [if_neg he]
              exact hxz

theorem lexLt_conn : ∀ a b : List Char, a ≠ b →
    lexLt a b = true ∨ lexLt b a = true := by
  intro a
  induction a with
  | nil =>
    intro b h
    cases b with
    | nil => exact absurd rfl h
    | cons y ys => simp [lexLt]
  | cons x xs ih =>
    intro b h
    cases b with
    | nil => simp [lexLt]
    | cons y ys =>
      unfold lexLt
      by_cases hxy : x = y
      · subst hxy
        rw [if_pos rfl, if_pos rfl]
        have hne : xs ≠ ys := fun he => h (he ▸ rfl)
        exact ih ys hne
      · rw [if_neg hxy, if_neg (Ne.symm hxy)]
        exact charLt_conn hxy

theorem lexLt_irrefl : ∀ a : List Char, lexLt a a = false := by
  intro a
  induction a with
  | nil => rfl
  | cons x xs ih =>
    unfold lexLt
    rw [if_pos rfl]
    exact ih

theorem strLt_trans (a b c : String) (h1 : strLt a b = true) (h2 : strLt b c = true) :
    strLt a c = true :=
  lexLt_trans a.data b.data c.data h1 h2

theorem strLt_conn (a b : String) (h : a ≠ b) : strLt a b = true ∨ strLt b a = true := by
  have hd : a.data ≠ b.data := fun he => h (congrArg String.mk he)
  exact lexLt_conn a.data b.data hd

theorem strLt_irrefl (a : String) : strLt a a = false := lexLt_irrefl a.data

/-! Specification lemmas for the groupby model: membership, completeness,
key order and total count. -/

theorem groupCountsBy_mem {α : Type} [DecidableEq α] {ltB : α → α → Bool}
    {l : List α} {p : α × Nat} (h : p ∈ groupCountsBy ltB l) :
    p.2 = countKey p.1 l ∧ p.1 ∈ l := by
  rcases List.mem_map.mp h with ⟨k, hk, he⟩
  subst he
  exact ⟨rfl, (mem_sortedKeysBy ltB k l).mp hk⟩

theorem groupCountsBy_complete {α : Type} [DecidableEq α] {ltB : α → α → Bool}
    {l : List α} {g : α} (h : g ∈ l) :
    (g, countKey g l) ∈ groupCountsBy ltB l :=
  List.mem_map.mpr ⟨g, (mem_sortedKeysBy ltB g l).mpr h, rfl⟩

theorem groupCountsBy_pairwise {α : Type} [DecidableEq α] {ltB : α → α → Bool}
    (htrans : ∀ a b c, ltB a b = true → ltB b c = true → ltB a c = true)
    (hconn : ∀ a b, a ≠ b → ltB a b = true ∨ ltB b a = true) (l : List α) :
    (groupCountsBy ltB l).Pairwise (fun p q => ltB p.1 q.1 = true) := by
  exact List.Pairwise.map _ (fun a b hab => hab)
    (pairwise_sortedKeysBy htrans hconn l)

theorem sumSnd_groupCountsBy {α : Type} [DecidableEq α] {ltB : α → α → Bool}
    (htrans : ∀ a b c, ltB a b = true → ltB b c = true → ltB a c = true)
    (hconn : ∀ a b, a ≠ b → ltB a b = true ∨ ltB b a = true)
    (hirr : ∀ a, ltB a a = false) (l : List α) :
    ((groupCountsBy ltB l).map (fun p => p.2)).sum = l.length := by
  unfold groupCountsBy
  rw [List.map_map]
  have hnd : (sortedKeysBy ltB l).Nodup :=
    nodup_of_pairwise_ltB hirr (pairwise_sortedKeysBy htrans hconn l)
  have hcov : ∀ a ∈ l, a ∈ sortedKeysBy ltB l :=
    fun a ha => (mem_sortedKeysBy ltB a l).mpr ha
  exact sum_countKey (sortedKeysBy ltB l) l hnd hcov

/-! Lemmas for the stable descending sort that models sort_values on the
count column. -/

theorem mem_insDesc {α : Type} (x p : α × Nat) :
    ∀ l : List (α × Nat), (p ∈ insDesc x l ↔ p = x ∨ p ∈ l) := by
  intro l
  induction l with
  | nil => simp [insDesc]
  | cons y ys ih =>
    by_cases h : y.2 ≤ x.2
    · simp [insDesc, h]
    · simp only [insDesc, if_neg h, List.mem_cons, ih]
      tauto

theorem pairwise_insDesc {α : Type} {ltB : α → α → Bool} {x : α × Nat}
    {l : List (α × Nat)}
    (hl : l.Pairwise (fun p q => q.2 ≤ p.2 ∧ (p.2 = q.2 → ltB p.1 q.1 = true)))
    (hx : ∀ y ∈ l, ltB x.1 y.1 = true) :
    (insDesc x l).Pairwise
      (fun p q => q.2 ≤ p.2 ∧ (p.2 = q.2 → ltB p.1 q.1 = true)) := by
  induction l with
  | nil => simp [insDesc]
  | cons y ys ih =>
    rcases List.pairwise_cons.mp hl with ⟨hy, hys⟩
    by_cases h : y.2 ≤ x.2
    · unfold insDesc
      rw [if_pos h]
      refine List.pairwise_cons.mpr ⟨?_, hl⟩
      intro z hz
      rcases List.mem_cons.mp hz with hzy | hzys
      · subst hzy
        exact ⟨h, fun _ => hx z (List.mem_cons_self z ys)⟩
      · rcases hy z hzys with ⟨h1, _⟩
        exact ⟨le_trans h1 h, fun _ => hx z (List.mem_cons_of_mem y hzys)⟩
    · unfold insDesc
      rw [if_neg h]
      have hx' : ∀ y' ∈ ys, ltB x.1 y'.1 = true :=
        fun y' hy' => hx y' (List.mem_cons_of_mem y hy')
      refine List.pairwise_cons.mpr ⟨?_, ih hys hx'⟩
      intro z hz
      rcases (mem_insDesc x z ys).mp hz with hzx | hzys
      · rw [hzx]
        have hlt : x.2 < y.2 := Nat.lt_of_not_le h
        exact ⟨Nat.le_of_lt hlt, fun he => absurd he.symm (Nat.ne_of_lt hlt)⟩
      · exact hy z hzys

theorem mem_sortDesc {α : Type} (p : α × Nat) :
    ∀ l : List (α × Nat), (p ∈ sortDesc l ↔ p ∈ l) := by
  intro l
  induction l with
  | nil => simp [sortDesc]
  | cons x xs ih =>
    simp [sortDesc, mem_insDesc, ih]

theorem pairwise_sortDesc {α : Type} {ltB : α → α → Bool} :
    ∀ {l : List (α × Nat)}, l.Pairwise (fun p q => ltB p.1 q.1 = true) →
      (sortDesc l).Pairwise
        (fun p q => q.2 ≤ p.2 ∧ (p.2 = q.2 → ltB p.1 q.1 = true)) := by
  intro l
  induction l with
  | nil => simp [sortDesc]
  | cons x xs ih =>
    intro hp
    rcases List.pairwise_cons.mp hp with ⟨hx, hxs⟩
    unfold sortDesc
    refine pairwise_insDesc (ih hxs) ?_
    intro y hy
    exact hx y ((mem_sortDesc y xs).mp hy)

/-! Lemmas for `firstMax`, the model of idxmax followed by loc. -/

theorem firstMax_eq_none_iff {α : Type} :
    ∀ l : List (α × Nat), (firstMax l = none ↔ l = []) := by
  intro l
  cases l with
  | nil => simp [firstMax]
  | cons p ps =>
    simp only [firstMax]
    cases firstMax ps <;> simp

theorem firstMax_spec {α : Type} {ltB : α → α → Bool} :
    ∀ {l : List (α × Nat)}, l.Pairwise (fun p q => ltB p.1 q.1 = true) →
      ∀ {m : α × Nat}, firstMax l = some m →
        m ∈ l ∧ (∀ q ∈ l, q.2 ≤ m.2) ∧
          (∀ q ∈ l, q.2 = m.2 → m.1 = q.1 ∨ ltB m.1 q.1 = true) := by
  intro l
  induction l with
  | nil => intro _ m hm; simp [firstMax] at hm
  | cons p ps ih =>
    intro hp m hm
    rcases List.pairwise_cons.mp hp with ⟨hhead, htail⟩
    rcases hfm : firstMax ps with _ | m'
    · have hnil : ps = [] := (firstMax_eq_none_iff ps).mp hfm
      subst hnil
      simp only [firstMax] at hm
      have hmp : m = p := by
        simpa using hm.symm
      subst hmp
      refine ⟨List.mem_cons_self m [], ?_, ?_⟩
      · intro q hq
        rcases List.mem_cons.mp hq with h | h
        · exact h ▸ le_refl m.2
        · simp at h
      · intro q hq _
        rcases List.mem_cons.mp hq with h | h
        · exact Or.inl (h ▸ rfl)
        · simp at h
    · rcases ih htail hfm with ⟨hmem, hmax, hfirst⟩
      simp only [firstMax, hfm] at hm
      by_cases hlt : p.2 < m'.2
      · rw [if_pos hlt] at hm
        have hmm : m = m' := by simpa using hm.symm
        subst hmm
        refine ⟨List.mem_cons_of_mem p hmem, ?_, ?_⟩
        · intro q hq
          rcases List.mem_cons.mp hq with h | h
          · exact h ▸ Nat.le_of_lt hlt
          · exact hmax q h
        · intro q hq he
          rcases List.mem_cons.mp hq with h | h
          · subst h
            exact absurd (he ▸ hlt) (lt_irrefl q.2)
          · exact hfirst q h he
      · rw [if_neg hlt] at hm
        have hmp : m = p := by simpa using hm.symm
        subst hmp
        have hle : m'.2 ≤ m.2 := Nat.le_of_not_lt hlt
        refine ⟨List.mem_cons_self m ps, ?_, ?_⟩
        · intro q hq
          rcases List.mem_cons.mp hq with h | h
          · exact h ▸ le_refl m.2
          · exact le_trans (hmax q h) hle
        · intro q hq _
          rcases List.mem_cons.mp hq with h | h
          · exact Or.inl (h ▸ rfl)
          · exact Or.inr (hhead q h)

/-! Lemmas relating the regex fragment to plain substring containment: a
pattern of literals searches exactly like a substring test. -/

theorem reMatchHere_lits : ∀ p s : List Char,
    reMatchHere (p.map RTok.lit) s = isPrefixB p s := by
  intro p
  induction p with
  | nil => intro s; cases s <;> rfl
  | cons a ps ih =>
    intro s
    cases s with
    | nil => rfl
    | cons b bs =>
      simp only [List.map_cons, reMatchHere, isPrefixB, tokMatches, ih]

theorem reSearch_lits : ∀ p s : List Char,
    reSearch (p.map RTok.lit) s = containsSub p s := by
  intro p s
  induction s with
  | nil => simp [reSearch, containsSub, reMatchHere_lits]
  | cons c cs ih => simp [reSearch, containsSub, reMatchHere_lits, ih]

theorem toPattern_no_meta : ∀ s : List Char, (∀ c ∈ s, isRegexMeta c = false) →
    toPattern s = s.map RTok.lit := by
  intro s h
  unfold toPattern
  apply List.map_congr_left
  intro c hc
  have hdot : ¬ c = '.' := by
    intro he
    have hm := h c hc
    rw [he] at hm
    have hdm : isRegexMeta '.' = true := by decide
    rw [hdm] at hm
    exact absurd hm (by decide)
  rw [if_neg hdot]

theorem isPrefixB_iff : ∀ p s : List Char,
    (isPrefixB p s = true ↔ ∃ t, s = p ++ t) := by
  intro p
  induction p with
  | nil =>
    intro s
    simp [isPrefixB]
  | cons a ps ih =>
    intro s
    cases s with
    | nil =>
      simp [isPrefixB]
    | cons b bs =>
      simp only [isPrefixB, Bool.and_eq_true, decide_eq_true_eq, ih,
        List.cons_append]
      constructor
      · rintro ⟨hab, t, ht⟩
        exact ⟨t, by rw [← hab, ht]⟩
      · rintro ⟨t, ht⟩
        injection ht with h1 h2
        exact ⟨h1.symm, t, h2⟩

theorem containsSub_iff : ∀ s p : List Char,
    (containsSub p s = true ↔ ∃ u v, s = u ++ p ++ v) := by
  intro s
  induction s with
  | nil =>
    intro p
    show isPrefixB p [] = true ↔ _
    rw [isPrefixB_iff]
    constructor
    · rintro ⟨t, ht⟩
      exact ⟨[], t, by simpa using ht⟩
    · rintro ⟨u, v, huv⟩
      have h1 := List.append_eq_nil.mp huv.symm
      have h2 := List.append_eq_nil.mp h1.1
      exact ⟨[], by simp [h2.2]⟩
  | cons c cs ih =>
    intro p
    show (isPrefixB p (c :: cs) || containsSub p cs) = true ↔ _
    rw [Bool.or_eq_true, isPrefixB_iff, ih]
    constructor
    · rintro (⟨t, ht⟩ | ⟨u, v, huv⟩)
      · exact ⟨[], t, by simpa using ht⟩
      · exact ⟨c :: u, v, by simp [huv]⟩
    · rintro ⟨u, v, huv⟩
      cases u with
      | nil => exact Or.inl ⟨v, by simpa using huv⟩
      | cons c' u' =>
        right
        refine ⟨u', v, ?_⟩
        simp only [List.cons_append, List.cons.injEq] at huv
        exact huv.2

/-! Lemmas for the digit-run extraction that models the regex (\d+). -/

theorem firstDigitRun_none : ∀ s : List Char, (∀ c ∈ s, c.isDigit = false) →
    firstDigitRun s = none := by
  intro s
  induction s with
  | nil => intro _; rfl
  | cons c cs ih =>
    intro h
    unfold firstDigitRun
    have hc : ¬ c.isDigit = true := by
      rw [h c (List.mem_cons_self c cs)]
      exact Bool.false_ne_true
    rw [if_neg hc]
    exact ih (fun a ha => h a (List.mem_cons_of_mem c ha))

theorem takeDigits_append : ∀ ds rest : List Char,
    (∀ c ∈ ds, c.isDigit = true) →
    (∀ c, rest.head? = some c → c.isDigit = false) →
    takeDigits (ds ++ rest) = ds := by
  intro ds
  induction ds with
  | nil =>
    intro rest _ hr
    cases rest with
    | nil => rfl
    | cons c cs =>
      show takeDigits (c :: cs) = []
      unfold takeDigits
      have hc : ¬ c.isDigit = true := by
        rw [hr c rfl]
        exact Bool.false_ne_true
      rw [if_neg hc]
  | cons d ds' ih =>
    intro rest hd hr
    show takeDigits (d :: (ds' ++ rest)) = d :: ds'
    unfold takeDigits
    rw [if_pos (hd d (List.mem_cons_self d ds'))]
    rw [ih rest (fun c hc => hd c (List.mem_cons_of_mem d hc)) hr]

theorem firstDigitRun_append : ∀ pre ds rest : List Char,
    (∀ c ∈ pre, c.isDigit = false) → ds ≠ [] →
    (∀ c ∈ ds, c.isDigit = true) →
    (∀ c, rest.head? = some c → c.isDigit = false) →
    firstDigitRun (pre ++ ds ++ rest) = some ds := by
  intro pre
  induction pre with
  | nil =>
    intro ds rest _ hne hd hr
    cases ds with
    | nil => exact absurd rfl hne
    | cons d ds' =>
      show firstDigitRun (d :: (ds' ++ rest)) = some (d :: ds')
      unfold firstDigitRun
      rw [if_pos (hd d (List.mem_cons_self d ds'))]
      rw [takeDigits_append ds' rest
        (fun c hc => hd c (List.mem_cons_of_mem d hc)) hr]
  | cons p ps ih =>
    intro ds rest hp hne hd hr
    show firstDigitRun (p :: (ps ++ ds ++ rest)) = some ds
    unfold firstDigitRun
    have hc : ¬ p.isDigit = true := by
      rw [hp p (List.mem_cons_self p ps)]
      exact Bool.false_ne_true
    rw [if_neg hc]
    exact ih ds rest (fun c hc' => hp c (List.mem_cons_of_mem p hc')) hne hd hr

/-! The splitter of the genre field never returns an empty list. -/

theorem splitCS_ne_nil : ∀ s acc : List Char, splitCS s acc ≠ [] := by
  intro s acc
  induction s, acc using splitCS.induct with
  | case1 acc => simp [splitCS]
  | case2 c acc => simp [splitCS]
  | case3 c c2 cs2 acc h ih =>
    simp only [splitCS, h, if_true]
    exact List.cons_ne_nil _ _
  | case4 c c2 cs2 acc h ih =>
    simp only [splitCS, h, Bool.false_eq_true, if_false]
    exact ih

/-! Concrete rows used by the witnesses and counterexamples below. -/

/-- Well-formed row with year 1990. -/
def rawFull : RawRow :=
  { title := some "Tjoet Nja Dhien", year := some "1990",
    runtime := some "108 min", genre := some "Drama", rating := some "13+" }

/-- Row with every optional field absent except the title. -/
def rawBare : RawRow :=
  { title := some "B", year := some "1990", runtime := none,
    genre := none, rating := none }

/-- Rows with years 1995, 1995 and 2000 for the peak-year scenario. -/
def raw95a : RawRow :=
  { title := some "P", year := some "1995", runtime := some "91 min",
    genre := some "Drama", rating := some "13+" }

def raw95b : RawRow :=
  { title := some "Q", year := some "1995", runtime := some "95 min",
    genre := some "Horror", rating := some "17+" }

def raw00 : RawRow :=
  { title := some "R", year := some "2000", runtime := some "100 min",
    genre := some "Drama", rating := some "SU" }

/-- Rows whose genres are met in anti-alphabetical order. -/
def rawZebra : RawRow :=
  { title := some "Z", year := some "1991", runtime := none,
    genre := some "Zebra", rating := some "SU" }

def rawApple : RawRow :=
  { title := some "A", year := some "1992", runtime := none,
    genre := some "Apple", rating := some "SU" }

/-- Rows whose ratings are met in anti-alphabetical order. -/
def rawRatZ : RawRow :=
  { title := some "Z", year := some "1991", runtime := none,
    genre := some "Drama", rating := some "Zulu" }

def rawRatA : RawRow :=
  { title := some "A", year := some "1992", runtime := none,
    genre := some "Drama", rating := some "Alpha" }

/-- Row with free text around the runtime digits. -/
def rawRt : RawRow :=
  { title := some "T", year := some "1993", runtime := some "approx. 123 minutes",
    genre := some "Drama", rating := some "13+" }

/-- Row whose title is the text abc, for the search counterexample. -/
def rawAbc : RawRow :=
  { title := some "abc", year := some "1994", runtime := none,
    genre := some "Drama", rating := some "13+" }

/-- Row whose year text does not parse as a number. -/
def rawBadYear : RawRow :=
  { title := some "U", year := some "unknown", runtime := none,
    genre := none, rating := none }

/-! Claim theorems. -/

/-- Claim C2: for every row of the record set produced by load, rating_clean
is a total (never null) string defaulting to Unclassified when the source
rating is absent, and genre_list has at least one element, defaulting to the
one-element list Unknown when the source genre is absent. -/
theorem claim_C2_row_invariants (raws : List RawRow) (r : Record)
    (h : r ∈ loadClean raws) :
    1 ≤ r.genre_list.length ∧
      ∃ raw ∈ raws, r = cleanRow raw ∧
        r.rating_clean = raw.rating.getD "Unclassified" ∧
        (raw.genre = none → r.genre_list = ["Unknown"]) := by
  rcases List.mem_map.mp h with ⟨raw, hraw, he⟩
  subst he
  constructor
  · show 1 ≤ ((splitCS (raw.genre.getD "Unknown").data []).map
      (fun cs => String.mk cs)).length
    rw [List.length_map]
    have hne := splitCS_ne_nil (raw.genre.getD "Unknown").data []
    exact Nat.one_le_iff_ne_zero.mpr
      (fun h0 => hne (List.eq_nil_of_length_eq_zero h0))
  · refine ⟨raw, hraw, rfl, rfl, ?_⟩
    intro hg
    show (splitCS (raw.genre.getD "Unknown").data []).map
      (fun cs => String.mk cs) = ["Unknown"]
    rw [hg]
    rfl

/-- Claim C2 witness: the invariants instantiated at a one-row load whose
genre and rating cells are absent. -/
theorem claim_C2_witness :
    cleanRow rawBare ∈ loadClean [rawBare] ∧
      (1 ≤ (cleanRow rawBare).genre_list.length ∧
        ∃ raw ∈ [rawBare], cleanRow rawBare = cleanRow raw ∧
          (cleanRow rawBare).rating_clean = raw.rating.getD "Unclassified" ∧
          (raw.genre = none → (cleanRow rawBare).genre_list = ["Unknown"])) :=
  ⟨by decide, claim_C2_row_invariants [rawBare] (cleanRow rawBare) (by decide)⟩

/-- Claim C3: the year-range filter returns exactly the records whose year
is present and between the two inclusive bounds; records with an absent
year are excluded. -/
theorem claim_C3_filter_range (recs : List Record) (lo hi : Int) (r : Record) :
    r ∈ filterByYearRange recs lo hi ↔
      r ∈ recs ∧ ∃ y, r.year = some y ∧ lo ≤ y ∧ y ≤ hi := by
  unfold filterByYearRange
  rw [List.mem_filter]
  constructor
  · rintro ⟨hr, hp⟩
    refine ⟨hr, ?_⟩
    rcases hy : r.year with _ | y
    · rw [hy] at hp
      simp at hp
    · rw [hy] at hp
      simp only [Bool.and_eq_true, decide_eq_true_eq] at hp
      exact ⟨y, rfl, hp.1, hp.2⟩
  · rintro ⟨hr, y, hy, h1, h2⟩
    refine ⟨hr, ?_⟩
    rw [hy]
    simp [h1, h2]

/-- Claim C3 witness: the record with year 1990 is in the filter output for
the inclusive range 1980 to 1995, by the right-to-left direction. -/
theorem claim_C3_witness :
    cleanRow rawFull ∈ filterByYearRange (loadClean [rawFull]) 1980 1995 :=
  (claim_C3_filter_range (loadClean [rawFull]) 1980 1995 (cleanRow rawFull)).mpr
    ⟨by decide, 1990, by decide, by decide, by decide⟩

/-- Claim C4: over any filtered set, the counts of yearlyCounts sum to the
number of filtered records. -/
theorem claim_C4_counts_sum (recs : List Record) (lo hi : Int) :
    ((yearlyCounts (filterByYearRange recs lo hi)).map (fun p => p.2)).sum
      = (filterByYearRange recs lo hi).length := by
  unfold yearlyCounts
  rw [sumSnd_groupCountsBy intLt_trans intLt_conn intLt_irrefl]
  unfold yearsOf
  apply length_filterMap_of_isSome
  intro r hr
  unfold filterByYearRange at hr
  have hp := (List.mem_filter.mp hr).2
  rcases hy : r.year with _ | y
  · rw [hy] at hp
    simp at hp
  · rfl

/-- Claim C4 witness: the sum-of-counts identity at a concrete three-record
set and range. -/
theorem claim_C4_witness :
    ((yearlyCounts (filterByYearRange (loadClean [raw95a, raw95b, raw00]) 1990 2005)).map
        (fun p => p.2)).sum
      = (filterByYearRange (loadClean [raw95a, raw95b, raw00]) 1990 2005).length :=
  claim_C4_counts_sum (loadClean [raw95a, raw95b, raw00]) 1990 2005

/-- Claim C5: on a non-empty filtered record set, peakYear returns the
(year, count) row of yearlyCounts with the maximum count, and among equal
maximal counts the smallest year. -/
theorem claim_C5_peak_year (recs : List Record) (lo hi : Int)
    (h : filterByYearRange recs lo hi ≠ []) :
    ∃ y c, peakYear (filterByYearRange recs lo hi) = some (y, c) ∧
      (y, c) ∈ yearlyCounts (filterByYearRange recs lo hi) ∧
      (∀ q ∈ yearlyCounts (filterByYearRange recs lo hi), q.2 ≤ c) ∧
      (∀ q ∈ yearlyCounts (filterByYearRange recs lo hi), q.2 = c → y ≤ q.1) := by
  obtain ⟨r, hr⟩ := List.exists_mem_of_ne_nil _ h
  have hy : ∃ yv, r.year = some yv := by
    unfold filterByYearRange at hr
    have hp := (List.mem_filter.mp hr).2
    rcases hyr : r.year with _ | yv
    · rw [hyr] at hp
      simp at hp
    · exact ⟨yv, rfl⟩
  obtain ⟨yv, hyv⟩ := hy
  have hymem : yv ∈ yearsOf (filterByYearRange recs lo hi) :=
    List.mem_filterMap.mpr ⟨r, hr, by rw [hyv]⟩
  have hkey : yv ∈ sortedKeysBy intLt (yearsOf (filterByYearRange recs lo hi)) :=
    (mem_sortedKeysBy intLt yv _).mpr hymem
  have hnenil : yearlyCounts (filterByYearRange recs lo hi) ≠ [] := by
    unfold yearlyCounts groupCountsBy
    intro he
    rw [List.map_eq_nil_iff] at he
    rw [he] at hkey
    simp at hkey
  rcases hpk : peakYear (filterByYearRange recs lo hi) with _ | m
  · unfold peakYear at hpk
    exact absurd ((firstMax_eq_none_iff _).mp hpk) hnenil
  · unfold peakYear at hpk
    obtain ⟨y, c⟩ := m
    obtain ⟨hmem, hmax, hfirst⟩ :=
      firstMax_spec (groupCountsBy_pairwise intLt_trans intLt_conn _) hpk
    refine ⟨y, c, rfl, hmem, hmax, ?_⟩
    intro q hq he
    rcases hfirst q hq he with h1 | h1
    · exact le_of_eq (by rw [← h1])
    · exact le_of_lt (by simpa [intLt] using h1)

/-- Claim C5 witness: three records with years 1995, 1995 and 2000, where
the peak is the pair of year 1995 with count 2. -/
theorem claim_C5_witness :
    filterByYearRange (loadClean [raw95a, raw95b, raw00]) 1990 2005 ≠ [] ∧
      (∃ y c, peakYear (filterByYearRange (loadClean [raw95a, raw95b, raw00]) 1990 2005) = some (y, c) ∧
        (y, c) ∈ yearlyCounts (filterByYearRange (loadClean [raw95a, raw95b, raw00]) 1990 2005) ∧
        (∀ q ∈ yearlyCounts (filterByYearRange (loadClean [raw95a, raw95b, raw00]) 1990 2005), q.2 ≤ c) ∧
        (∀ q ∈ yearlyCounts (filterByYearRange (loadClean [raw95a, raw95b, raw00]) 1990 2005), q.2 = c → y ≤ q.1)) ∧
      peakYear (filterByYearRange (loadClean [raw95a, raw95b, raw00]) 1990 2005) = some (1995, 2) :=
  ⟨by decide,
   claim_C5_peak_year (loadClean [raw95a, raw95b, raw00]) 1990 2005 (by decide),
   by decide⟩

/-- Claim C1 counterexample: on a year range whose filtered set is empty,
peak_year does not return an empty or zero result: idxmax on the empty
count series raises ValueError, which `peakYear` models by `none`. -/
theorem claim_C1_counterexample :
    filterByYearRange (loadClean [rawFull]) 2000 2001 = [] ∧
      peakYear (filterByYearRange (loadClean [rawFull]) 2000 2001) = none := by
  decide

/-- Claim C1 as amended: on an empty filtered set the table aggregations
return empty tables, the two percentage computations return 0, the average
runtime is absent and the KPI total is 0, while peakYear raises (modelled by
`none`) instead of returning an empty or zero result. -/
theorem claim_C1_amended (recs : List Record) (lo hi : Int) (n : Nat)
    (h : filterByYearRange recs lo hi = []) :
    yearlyCounts (filterByYearRange recs lo hi) = [] ∧
      genreCounts (filterByYearRange recs lo hi) n = [] ∧
      ratingDistribution (filterByYearRange recs lo hi) = [] ∧
      unclassifiedRatePct (filterByYearRange recs lo hi) = 0 ∧
      missingRuntimeRatePct (filterByYearRange recs lo hi) = 0 ∧
      averageRuntime (filterByYearRange recs lo hi) = none ∧
      totalFilms (filterByYearRange recs lo hi) = 0 ∧
      peakYear (filterByYearRange recs lo hi) = none := by
  rw [h]
  refine ⟨rfl, ?_, rfl, rfl, rfl, rfl, rfl, rfl⟩
  show (sortDesc (groupCountsBy strLt (explodedGenres []))).take n = []
  rw [show sortDesc (groupCountsBy strLt (explodedGenres [])) = [] from rfl]
  exact List.take_nil

/-- Claim C1 witness for the amended statement: a one-row record set with
year 1990 filtered to the empty range 2000-2001. -/
theorem claim_C1_witness :
    filterByYearRange (loadClean [rawBare]) 2000 2001 = [] ∧
      (yearlyCounts (filterByYearRange (loadClean [rawBare]) 2000 2001) = [] ∧
        genreCounts (filterByYearRange (loadClean [rawBare]) 2000 2001) 10 = [] ∧
        ratingDistribution (filterByYearRange (loadClean [rawBare]) 2000 2001) = [] ∧
        unclassifiedRatePct (filterByYearRange (loadClean [rawBare]) 2000 2001) = 0 ∧
        missingRuntimeRatePct (filterByYearRange (loadClean [rawBare]) 2000 2001) = 0 ∧
        averageRuntime (filterByYearRange (loadClean [rawBare]) 2000 2001) = none ∧
        totalFilms (filterByYearRange (loadClean [rawBare]) 2000 2001) = 0 ∧
        peakYear (filterByYearRange (loadClean [rawBare]) 2000 2001) = none) :=
  ⟨by decide, claim_C1_amended (loadClean [rawBare]) 2000 2001 10 (by decide)⟩

/-- Claim C6 counterexample: with the genres Zebra then Apple, both of
count 1, the code lists Apple first, not the earlier-encountered Zebra the
claim asserts: the groupby emits the keys in ascending alphabetical order,
and on this two-row table the count sort (numpy runs a plain insertion
sort on arrays this small) keeps that order, as a hand trace of the code
confirms. -/
theorem claim_C6_counterexample :
    genreCounts (loadClean [rawZebra, rawApple]) 10
      ≠ genreCountsClaimOrder (loadClean [rawZebra, rawApple]) 10 := by
  decide

/-- Claim C6 as amended: genreCounts groups over the exploded genre_list, so
a record contributes one count per genre list entry; rows are sorted
descending by count and truncated to the top N. On equal counts the
relative order is not guaranteed by the code (the default quicksort of
sort_values is not stable), and in particular it need not put the
earlier-encountered genre first; no tie order is asserted here. -/
theorem claim_C6_amended (recs : List Record) (n : Nat) :
    (∀ p ∈ genreCounts recs n,
        p.2 = countKey p.1 (explodedGenres recs) ∧ p.1 ∈ explodedGenres recs) ∧
      (genreCounts recs n).length ≤ n ∧
      (∀ g ∈ explodedGenres recs,
        (g, countKey g (explodedGenres recs))
          ∈ sortDesc (groupCountsBy strLt (explodedGenres recs))) ∧
      (genreCounts recs n).Pairwise (fun p q => q.2 ≤ p.2) := by
  refine ⟨?_, ?_, ?_, ?_⟩
  · intro p hp
    have hps : p ∈ sortDesc (groupCountsBy strLt (explodedGenres recs)) :=
      List.take_subset n _ hp
    have hpg : p ∈ groupCountsBy strLt (explodedGenres recs) :=
      (mem_sortDesc p _).mp hps
    exact groupCountsBy_mem hpg
  · exact List.length_take_le n _
  · intro g hg
    exact (mem_sortDesc _ _).mpr (groupCountsBy_complete hg)
  · have hp :=
      pairwise_sortDesc (groupCountsBy_pairwise strLt_trans strLt_conn
        (explodedGenres recs))
    have hp2 := List.Pairwise.sublist (List.take_sublist n _) hp
    exact hp2.imp (fun h => h.1)

/-- Claim C6 witness: two records with genre lists Drama, Comedy and Drama
give the rows Drama with count 2 then Comedy with count 1, and the first
conjunct instantiated at the Drama row. -/
theorem claim_C6_witness :
    genreCounts (loadClean [{ rawFull with genre := some "Drama, Comedy" }, rawFull]) 10
        = [("Drama", 2), ("Comedy", 1)] ∧
      ("Drama", 2) ∈ genreCounts (loadClean [{ rawFull with genre := some "Drama, Comedy" }, rawFull]) 10 ∧
      ((("Drama", 2) : String × Nat).2
          = countKey (("Drama", 2) : String × Nat).1
            (explodedGenres (loadClean [{ rawFull with genre := some "Drama, Comedy" }, rawFull])) ∧
        (("Drama", 2) : String × Nat).1
          ∈ explodedGenres (loadClean [{ rawFull with genre := some "Drama, Comedy" }, rawFull])) :=
  ⟨by decide, by decide,
   (claim_C6_amended (loadClean [{ rawFull with genre := some "Drama, Comedy" }, rawFull]) 10).1
     ("Drama", 2) (by decide)⟩

/-- Claim C7 counterexample: with the ratings Zulu then Alpha the code
returns the rows in ascending alphabetical order, Alpha first, not in the
first-encounter order the claim asserts. -/
theorem claim_C7_counterexample :
    ratingDistribution (loadClean [rawRatZ, rawRatA])
      ≠ ratingDistributionClaimOrder (loadClean [rawRatZ, rawRatA]) := by
  decide

/-- Claim C7 as amended: ratingDistribution has one row per distinct rating
value with its occurrence count, complete for every rating that occurs, and
the rows are in ascending lexicographic rating order (pandas groupby sorts
its keys), not in first-encounter order. -/
theorem claim_C7_amended (recs : List Record) :
    (∀ p ∈ ratingDistribution recs,
        p.2 = countKey p.1 (recs.map (fun r => r.rating_clean)) ∧
          p.1 ∈ recs.map (fun r => r.rating_clean)) ∧
      (∀ g ∈ recs.map (fun r => r.rating_clean),
        (g, countKey g (recs.map (fun r => r.rating_clean)))
          ∈ ratingDistribution recs) ∧
      (ratingDistribution recs).Pairwise (fun p q => strLt p.1 q.1 = true) := by
  refine ⟨?_, ?_, ?_⟩
  · intro p hp
    exact groupCountsBy_mem hp
  · intro g hg
    exact groupCountsBy_complete hg
  · exact groupCountsBy_pairwise strLt_trans strLt_conn _

/-- Claim C7 witness: the amended statement instantiated at the two-record
set with ratings Zulu and Alpha, naming the Alpha row. -/
theorem claim_C7_witness :
    ratingDistribution (loadClean [rawRatZ, rawRatA]) = [("Alpha", 1), ("Zulu", 1)] ∧
      ((("Alpha", 1) : String × Nat).2
          = countKey (("Alpha", 1) : String × Nat).1
            ((loadClean [rawRatZ, rawRatA]).map (fun r => r.rating_clean)) ∧
        (("Alpha", 1) : String × Nat).1
          ∈ (loadClean [rawRatZ, rawRatA]).map (fun r => r.rating_clean)) :=
  ⟨by decide,
   (claim_C7_amended (loadClean [rawRatZ, rawRatA])).1 ("Alpha", 1) (by decide)⟩

/-- Claim C8: runtime_min is the integer value of the first maximal digit
run anywhere in the runtime text, and absent when the text has no digit or
the cell itself is absent. The decomposition hypotheses pin down the first
maximal digit run: no digit before it, non-empty, all digits, and not
extendable to the right. -/
theorem claim_C8_runtime (raw : RawRow) :
    (raw.runtime = none → (cleanRow raw).runtime_min = none) ∧
      ∀ s, raw.runtime = some s →
        ((∀ c ∈ s.data, c.isDigit = false) → (cleanRow raw).runtime_min = none) ∧
        ∀ pre ds rest, s.data = pre ++ ds ++ rest →
          (∀ c ∈ pre, c.isDigit = false) → ds ≠ [] →
          (∀ c ∈ ds, c.isDigit = true) →
          (∀ c, rest.head? = some c → c.isDigit = false) →
          (cleanRow raw).runtime_min = some (digitsVal ds) := by
  constructor
  · intro hn
    show (raw.runtime.bind fun s => (firstDigitRun s.data).map digitsVal) = none
    rw [hn]
    rfl
  · intro s hs
    constructor
    · intro hnod
      show (raw.runtime.bind fun t => (firstDigitRun t.data).map digitsVal) = none
      rw [hs]
      show (firstDigitRun s.data).map digitsVal = none
      rw [firstDigitRun_none s.data hnod]
      rfl
    · intro pre ds rest hsplit hpre hne hds hrest
      show (raw.runtime.bind fun t => (firstDigitRun t.data).map digitsVal)
        = some (digitsVal ds)
      rw [hs]
      show (firstDigitRun s.data).map digitsVal = some (digitsVal ds)
      rw [hsplit, firstDigitRun_append pre ds rest hpre hne hds hrest]
      rfl

/-- Claim C8 witness: the runtime text approx. 123 minutes yields
runtime_min 123, through the decomposition into the digit-free part, the
digit run 123 and the rest. -/
theorem claim_C8_witness :
    rawRt.runtime = some "approx. 123 minutes" ∧
      (cleanRow rawRt).runtime_min = some 123 := by
  refine ⟨rfl, ?_⟩
  have h := ((claim_C8_runtime rawRt).2 "approx. 123 minutes" rfl).2
    "approx. ".data "123".data " minutes".data
    (by decide) (by decide) (by decide) (by decide) (by decide)
  rw [h]
  rfl

/-! Helper facts about regex metacharacters and ASCII lowercasing, for the
search claim: lowercasing never turns a non-metacharacter into a
metacharacter. -/

theorem isRegexMeta_false_of_range {c : Char} (h1 : 97 ≤ c.toNat)
    (h2 : c.toNat ≤ 122) : isRegexMeta c = false := by
  unfold isRegexMeta
  have hmem : ¬ c ∈ ".^$*+?[]\\|()".data := by
    intro hm
    fin_cases hm <;>
      first
        | exact absurd h1 (by decide)
        | exact absurd h2 (by decide)
  have h123 : ¬ c.val = (123 : UInt32) := by
    intro hv
    have h3 : c.toNat = 123 := by
      show c.val.toNat = 123
      rw [hv]
      decide
    omega
  have h125 : ¬ c.val = (125 : UInt32) := by
    intro hv
    have h3 : c.toNat = 125 := by
      show c.val.toNat = 125
      rw [hv]
      decide
    omega
  simp [hmem, h123, h125]

theorem isRegexMeta_toLower (c : Char) (h : isRegexMeta c = false) :
    isRegexMeta c.toLower = false := by
  show isRegexMeta (if c.toNat ≥ 65 ∧ c.toNat ≤ 90
    then Char.ofNat (c.toNat + 32) else c) = false
  by_cases hc : c.toNat ≥ 65 ∧ c.toNat ≤ 90
  · rw [if_pos hc]
    obtain ⟨h1, h2⟩ := hc
    have hg : ∀ m : Nat, 65 ≤ m → m ≤ 90 →
        isRegexMeta (Char.ofNat (m + 32)) = false := by
      intro m hm1 hm2
      interval_cases m <;> decide
    exact hg c.toNat h1 h2
  · rw [if_neg hc]
    exact h

/-- Claim C9 counterexample: the query a.c is not a substring of the title
abc, yet the search interface returns that record, because str.contains
interprets the query as a regular expression in which the dot matches any
character; the substring reading of the claim disagrees with the code. -/
theorem claim_C9_counterexample :
    searchExplorer (loadClean [rawAbc]) "a.c"
      ≠ searchSpecSubstr (loadClean [rawAbc]) "a.c" := by
  decide

/-- Claim C9 as amended: the query is interpreted as a case-insensitive
regular expression; for every non-empty query free of regex metacharacters
this coincides with the case-insensitive substring match that the claim
describes (absent titles never match), and the empty query returns the
first 20 records of the filtered set. -/
theorem claim_C9_amended (recs : List Record) (q : String) (hq : ¬ q = "")
    (hmeta : ∀ c ∈ q.data, isRegexMeta c = false) :
    searchExplorer recs q = searchSpecSubstr recs q ∧
      searchExplorer recs "" = recs.take 20 := by
  constructor
  · unfold searchExplorer searchSpecSubstr
    rw [if_neg hq, if_neg hq]
    apply List.filter_congr
    intro r _
    unfold titleMatches
    rcases r.title with _ | t
    · rfl
    · have hlow : ∀ c ∈ lowerChars q, isRegexMeta c = false := by
        intro c hc
        rcases List.mem_map.mp hc with ⟨c0, hc0, he⟩
        rw [← he]
        exact isRegexMeta_toLower c0 (hmeta c0 hc0)
      rw [toPattern_no_meta (lowerChars q) hlow]
      show reSearch (List.map RTok.lit (lowerChars q)) (lowerChars t)
        = containsSub (lowerChars q) (lowerChars t)
      rw [reSearch_lits]
  · unfold searchExplorer
    rw [if_pos rfl]

/-- Claim C9 witness: the metacharacter-free uppercase query ABC matches the
title abc case-insensitively, the code and the substring reading agree on
it, and the record is returned. -/
theorem claim_C9_witness :
    ¬ ("ABC" : String) = "" ∧
      (∀ c ∈ ("ABC" : String).data, isRegexMeta c = false) ∧
      (searchExplorer (loadClean [rawAbc]) "ABC"
          = searchSpecSubstr (loadClean [rawAbc]) "ABC" ∧
        searchExplorer (loadClean [rawAbc]) "" = (loadClean [rawAbc]).take 20) ∧
      searchExplorer (loadClean [rawAbc]) "ABC" = loadClean [rawAbc] :=
  ⟨by decide, by decide,
   claim_C9_amended (loadClean [rawAbc]) "ABC" (by decide) (by decide),
   by decide⟩

/-- Claim C10: when load succeeds but no row has a parseable year, the
record set is still one record per row, yet the year-bound computation for
the slider finds no year and raises (modelled by `none`), so startup fails
after a successful load. -/
theorem claim_C10_year_bounds (raws : List RawRow)
    (h : ∀ raw ∈ raws, toNumericYear raw.year = none) :
    yearBounds (loadClean raws) = none ∧ (loadClean raws).length = raws.length := by
  constructor
  · have hys : yearsOf (loadClean raws) = [] := by
      unfold yearsOf loadClean
      rw [List.filterMap_map]
      rw [List.filterMap_eq_nil_iff.mpr]
      intro raw hraw
      show toNumericYear raw.year = none
      exact h raw hraw
    unfold yearBounds
    rw [hys]
  · unfold loadClean
    rw [List.length_map]

/-- Claim C10 witness: a single row whose year cell reads unknown loads
fine but leaves the slider bounds undefined. -/
theorem claim_C10_witness :
    (∀ raw ∈ [rawBadYear], toNumericYear raw.year = none) ∧
      (yearBounds (loadClean [rawBadYear]) = none ∧
        (loadClean [rawBadYear]).length = [rawBadYear].length) :=
  ⟨by decide, claim_C10_year_bounds [rawBadYear] (by decide)⟩

end FilmDash
